import Mathlib

/-!
Verification of datumaro's telemetry utilities and project pipeline.

The telemetry helpers (`_get_action_name`, `_cleanup_params_info`,
`_cleanup_stacktrace` from `datumaro/util/telemetry_utils.py`) are embedded
directly.  Python strings are embedded as `String` / `List Char`; filesystem
paths in the project model are embedded as lists of path components.
-/

/- ## Telemetry: command dispatch (`_get_action_name`) -/

/-- Commands dispatched by `_get_action_name`.  Each enumerated CLI command
callable is one constructor; `other n` stands for any object that is not
identical to one of the enumerated command callables. -/
inductive DmCommand where
  | projectExport
  | projectFilter
  | projectTransform
  | projectInfo
  | projectStats
  | projectValidate
  | projectMigrate
  | sourceAdd
  | sourceRemove
  | sourceInfo
  | modelAdd
  | modelRemove
  | modelRun
  | modelInfo
  | checkout
  | commit
  | convert
  | create
  | diff
  | explain
  | info
  | log
  | merge
  | status
  | other (n : Nat)
deriving DecidableEq

/-- Embedding of `_get_action_name`: identity-based dispatch from a command
object to its telemetry action label.  The duplicated `commands.explain`
branch in the source collapses to a single case here. -/
def getActionName : DmCommand → String
  | .projectExport => "project_export_result"
  | .projectFilter => "project_filter_result"
  | .projectTransform => "project_transform_result"
  | .projectInfo => "project_info_result"
  | .projectStats => "project_stats_result"
  | .projectValidate => "project_validate_result"
  | .projectMigrate => "project_migrate_result"
  | .sourceAdd => "source_add_result"
  | .sourceRemove => "source_remove_result"
  | .sourceInfo => "source_info_result"
  | .modelAdd => "model_add_result"
  | .modelRemove => "model_remove_result"
  | .modelRun => "model_run_result"
  | .modelInfo => "model_info_result"
  | .checkout => "checkout_result"
  | .commit => "commit_result"
  | .convert => "convert_result"
  | .create => "create_result"
  | .diff => "diff_result"
  | .explain => "explain_result"
  | .info => "info_result"
  | .log => "log_result"
  | .merge => "merge_result"
  | .status => "status_result"
  | .other _ => "unknown_command_result"

/-- Suffix test on strings, computed structurally on the character lists. -/
def strEndsWith (s suf : String) : Bool :=
  suf.data.isSuffixOf s.data

/- ## Telemetry: parameter scrubbing (`_cleanup_params_info`) -/

/-- Embedding of `_cleanup_params_info`.  `args` is `vars(args)` as an ordered
attribute list (name, value); `strFn` is Python's `str` on attribute values;
`paths` is `params_with_paths`.  Attributes named `command` or `_positionals`
are dropped; attributes named in `paths` are replaced by the constant "1";
all others are stringified. -/
def cleanupParamsInfo (strFn : α → String) (args : List (String × α))
    (paths : List String) : List (String × String) :=
  args.filterMap (fun p =>
    if p.1 = "command" ∨ p.1 = "_positionals" then none
    else if p.1 ∈ paths then some (p.1, "1")
    else some (p.1, strFn p.2))

/- ## Telemetry: stack-trace scrubbing (`_cleanup_stacktrace`) -/

/-- The literal characters of the regex's fixed part `File "`. -/
def fileQuote : List Char := ['F', 'i', 'l', 'e', ' ', '"']

/-- Capture of the regex group `([^"]+)`: the characters up to the next
double quote, together with the remainder after that quote; `none` when no
closing quote exists. -/
def takeUntilQuote : List Char → Option (List Char × List Char)
  | [] => none
  | c :: cs =>
    if c = '"' then some ([], cs)
    else
      match takeUntilQuote cs with
      | some (cap, rest) => some (c :: cap, rest)
      | none => none

/-- Embedding of `re.sub(r'File "([^\x22]+)"', clean_path, line, 1)`: scan
left to right, rewrite the first occurrence of `File "<nonempty>"` by
applying `f` to the captured path, and leave the rest of the line unchanged. -/
def subFileOnceAux (f : List Char → List Char) : List Char → List Char
  | [] => []
  | c :: cs =>
    if fileQuote.isPrefixOf (c :: cs) then
      match takeUntilQuote (List.drop 6 (c :: cs)) with
      | some (cap, rest) =>
        if cap.isEmpty then c :: subFileOnceAux f cs
        else fileQuote ++ f cap ++ '"' :: rest
      | none => c :: subFileOnceAux f cs
    else c :: subFileOnceAux f cs

/-- Split a character list on `/` separators (`str.split('/')`). -/
def splitSlashAux : List Char → List Char → List (List Char)
  | [], acc => [acc.reverse]
  | c :: cs, acc =>
    if c = '/' then acc.reverse :: splitSlashAux cs []
    else splitSlashAux cs (c :: acc)

/-- Split a path string into the pieces between `/` separators. -/
def splitSlash (s : List Char) : List (List Char) := splitSlashAux s []

/-- Nonempty path components of a path string. -/
def pathComps (s : List Char) : List (List Char) :=
  (splitSlash s).filter (fun c => ¬ c.isEmpty)

/-- Embedding of `os.path.basename`: the text after the last `/`. -/
def baseName (s : List Char) : List Char := (splitSlash s).getLastD []

/-- Join path components with `/` separators. -/
def joinComps : List (List Char) → List Char
  | [] => []
  | [c] => c
  | c :: c' :: cs => c ++ '/' :: joinComps (c' :: cs)

/-- Length of the common leading run of two component lists. -/
def commonLen : List (List Char) → List (List Char) → Nat
  | a :: as, b :: bs => if a = b then commonLen as bs + 1 else 0
  | _, _ => 0

/-- The component chain of a relative path: `..` for each component of `s`
past the common leading run, then the components of `p` past it. -/
def relChain (p s : List (List Char)) : List (List Char) :=
  List.replicate (s.length - commonLen p s) ['.', '.'] ++ p.drop (commonLen p s)

/-- Embedding of `os.path.relpath(path, start)` on POSIX paths: drop the
common leading components, go up with `..` for each remaining component of
`start`, then descend into the remaining components of `path`. -/
def relPath (path start : List Char) : List Char :=
  if (relChain (pathComps path) (pathComps start)).isEmpty then ['.']
  else joinComps (relChain (pathComps path) (pathComps start))

/-- Embedding of the `clean_path` closure in `_cleanup_stacktrace`: a path
that starts with the installation directory (string-prefix test, as in the
source) is made relative to it, any other path is reduced to its basename. -/
def cleanPathL (installDir p : List Char) : List Char :=
  if installDir.isPrefixOf p then relPath p installDir else baseName p

/-- One entry of `traceback.format_list`: the text `  File "<path>"<rest>`,
where `rest` holds the line number, function name and optional source text,
including any newlines. -/
structure TBFrame where
  path : List Char
  rest : List Char

/-- Render one formatted traceback entry. -/
def formatFrameL (fr : TBFrame) : List Char :=
  [' ', ' '] ++ fileQuote ++ fr.path ++ '"' :: fr.rest

/-- Embedding of the trace-cleaning part of `_cleanup_stacktrace`: apply the
single-occurrence substitution to every formatted entry and join the results
(`''.join(tb_lines)`).  The exception-type name also returned by the source
function is independent of this computation and is not modelled. -/
def cleanupStacktraceL (installDir : List Char) (frames : List TBFrame) : List Char :=
  (frames.map (fun fr => subFileOnceAux (cleanPathL installDir) (formatFrameL fr))).flatten

/-- Substring test: does `needle` occur contiguously inside `hay`? -/
def listContainsSub (needle : List Char) : List Char → Bool
  | [] => needle.isEmpty
  | c :: cs => needle.isPrefixOf (c :: cs) || listContainsSub needle cs

/- ## Project pipeline model

The project, source-registry, build-pipeline and model-launcher code of this
repository is exercised by `tests/test_project.py` but its implementation
modules (`datumaro/components/project.py`, `dataset.py`, `launcher.py`) are
not available here; the definitions below are modelled from the spec
(sections 3, 4.3, 4.5). -/

/-- Modelled from the spec: a dataset item produced by an extractor, for the
build-pipeline claims.  Only the integer id and subset of
`datumaro.components.extractor.DatasetItem` are needed. -/
structure DItem where
  id : Int
  subset : String
deriving DecidableEq

/-- Modelled from the spec: the filter expression language, restricted to
the id comparison used by the filter-stage claim (the XPath-like expression
`/item[id < n]` keeps the items whose id is below `n`). -/
inductive FilterExpr where
  | idLt (n : Int)
deriving DecidableEq

/-- Evaluate a filter expression on one item. -/
def evalFilter : FilterExpr → DItem → Bool
  | .idLt n, it => it.id < n

/-- Modelled from the spec: a build stage attached to a source
(`datumaro.components.project.BuildStage`); only filter stages are needed
by the claims. -/
inductive BStage where
  | filterStage (e : FilterExpr)
deriving DecidableEq

/-- Apply one build stage to the item sequence produced so far. -/
def applyStage : BStage → List DItem → List DItem
  | .filterStage e, items => items.filter (evalFilter e)

/-- Modelled from the spec: the part of a project consumed by
`make_dataset` — the extractor registry (format name to the item sequence
its extractor yields), the sources (name to format) and the per-source
attached stage chains. -/
structure PipelineProject where
  extractors : List (String × List DItem)
  srcs : List (String × String)
  stages : List (String × List BStage)

/-- Modelled from the spec: `Project.make_dataset` on one build target —
resolve the source's format to its extractor, then fold the attached stage
chain over the extracted items (`datumaro.components.project`). -/
def makeDataset (pr : PipelineProject) (target : String) : Option (List DItem) := do
  let fmt ← pr.srcs.lookup target
  let items ← pr.extractors.lookup fmt
  let sts := (pr.stages.lookup target).getD []
  return sts.foldl (fun acc st => applyStage st acc) items

/- ## Model execution (`ModelTransform`) -/

/-- Modelled from the spec: a dataset item as consumed by `ModelTransform`
— a numeric id, its single-value image payload, and its annotation list of
an arbitrary annotation type `α`. -/
structure MTItem (α : Type) where
  id : Nat
  data : Int
  anns : List α
deriving DecidableEq

/-- Modelled from the spec: `datumaro.util.take_by` — group a sequence into
consecutive batches of `n` items (the last batch may be shorter). -/
def take_by (n : Nat) : List α → List (List α)
  | [] => []
  | x :: xs => (x :: xs.take (n - 1)) :: take_by n (xs.drop (n - 1))
termination_by l => l.length
decreasing_by simp [List.length_drop]; omega

/-- The single fatal error of model execution. -/
inductive MTError where
  | launcherOutputMismatch
deriving DecidableEq

/-- Modelled from the spec: the per-batch body of
`datumaro.components.launcher.ModelTransform` — invoke the launcher once per
batch on the batch's payloads in order; a count mismatch between the batch's
inputs and outputs is fatal; otherwise zip each output entry back onto its
source item's annotation list. -/
def modelTransformBatches (launcher : List Int → List (List α)) :
    List (List (MTItem α)) → Except MTError (List (MTItem α))
  | [] => .ok []
  | b :: bs =>
    let outs := launcher (b.map (·.data))
    if outs.length = b.length then
      match modelTransformBatches launcher bs with
      | .ok rest =>
        .ok (((b.zip outs).map (fun p => { p.1 with anns := p.1.anns ++ p.2 })) ++ rest)
      | .error e => .error e
    else .error .launcherOutputMismatch

/-- Modelled from the spec: iterating
`datumaro.components.launcher.ModelTransform` over a dataset — batch the
items, run the launcher per batch, and concatenate the annotated batches in
order. -/
def modelTransform (launcher : List Int → List (List α)) (bsize : Nat)
    (items : List (MTItem α)) : Except MTError (List (MTItem α)) :=
  modelTransformBatches launcher (take_by bsize items)

/-- The annotation recorded by the test launcher: a label with the
batch-relative index and the input payload as attributes. -/
structure TestAnn where
  label : Nat
  idx : Nat
  data : Int
deriving DecidableEq

/-- Embedding of the `TestLauncher` defined inside
`ModelsTest.test_can_batch_launch_custom_model`
(`tests/test_project.py`): for each batch input, in enumeration order, one
`Label(0)` annotation recording the batch-relative index and the payload. -/
def testLauncher (inputs : List Int) : List (List TestAnn) :=
  inputs.enum.map (fun p => [⟨0, p.1, p.2⟩])

/- ## Source registry model -/

/-- A filesystem path as its list of components. -/
abbrev FPath := List String

/-- Modelled from the spec: a source URL as stored in a Source record —
empty, a local filesystem path, the `remote://<name>/<subpath>` form, or a
path relative to the source's registered remote. -/
inductive Url where
  | empty
  | localPath (p : FPath)
  | remoteRel (r : String) (rel : FPath)
  | rel (p : FPath)
deriving DecidableEq

/-- Modelled from the spec: a Source record
(`datumaro.components.config_model.Source`): url, format, options and the
optional remote reference.  `origin` additionally keeps the resolved
location the source was added from, which `pull` re-reads. -/
structure SourceRec where
  url : Url
  format : String
  options : List (String × String)
  remote : Option String
  origin : Url
deriving DecidableEq

/-- Modelled from the spec: the project state touched by the source
registry — attached-or-detached flag, the filesystem (the set of existing
files, as component paths), the registered remotes (name to base URL), the
declared sources, and the managed source-data directory contents per
source. -/
structure ProjState where
  attached : Bool
  fs : List FPath
  remotes : List (String × FPath)
  srcs : List (String × SourceRec)
  srcData : List (String × List FPath)
deriving DecidableEq

/-- Errors of the source registry, from the spec's error taxonomy. -/
inductive PErr where
  | sourceExists
  | unknownRemote
  | unknownSource
  | missingPath
  | detachedProject
deriving DecidableEq

/-- Does `p` name an existing file? -/
def isFile (fs : List FPath) (p : FPath) : Bool := fs.contains p

/-- Does `p` name an existing directory (a strict prefix of some file)? -/
def isDir (fs : List FPath) (p : FPath) : Bool :=
  fs.any (fun f => p.isPrefixOf f && decide (p.length < f.length))

/-- Does `p` exist, as a file or as a directory? -/
def pathExists (fs : List FPath) (p : FPath) : Bool := isFile fs p || isDir fs p

/-- The files strictly under directory `dir`, relativized to `dir`. -/
def filesUnder (fs : List FPath) (dir : FPath) : List FPath :=
  (fs.filter (fun f => dir.isPrefixOf f && decide (dir.length < f.length))).map
    (fun f => f.drop dir.length)

/-- Modelled from the spec: the contents copied into a managed source-data
directory from an existing path — a single file lands under its basename, a
directory's tree is copied relative to it. -/
def pullFiles (fs : List FPath) (full : FPath) : List FPath :=
  if isFile fs full then [[full.getLastD ""]] else filesUnder fs full

/-- Modelled from the spec: the registered remote whose base URL is the
longest prefix of `p`. -/
def bestRemote (remotes : List (String × FPath)) (p : FPath) :
    Option (String × FPath) :=
  remotes.foldl (fun acc r =>
    if r.2.isPrefixOf p then
      match acc with
      | some b => if b.2.length < r.2.length then some r else acc
      | none => some r
    else acc) none

/-- Insert a source record with its managed data into the project state. -/
def addRecord (st : ProjState) (name : String) (r : SourceRec)
    (data : List FPath) : ProjState :=
  { st with srcs := (name, r) :: st.srcs, srcData := (name, data) :: st.srcData }

/-- Modelled from the spec: `project.sources.add(name, s)`
(`datumaro.components.project.ProjectSources.add`, spec section 4.3).  The
name must be fresh.  On an attached project an existing local path is copied
into the managed directory and the stored url is normalized: cleared, or —
when the path lies under a registered remote, chosen by longest-prefix
match — made relative to that remote with the overlapping tail trimmed; a
`remote://r/sub` url is resolved against remote `r` and a single-file source
is stored under its basename.  On a detached project a nonexistent local
path fails with `DetachedProjectError` and url-less sources are stored
unchanged. -/
def sourcesAdd (st : ProjState) (name : String) (s : SourceRec) :
    Except PErr ProjState :=
  match st.srcs.lookup name with
  | some _ => .error .sourceExists
  | none =>
    if st.attached then
      match s.url with
      | .empty => .ok (addRecord st name { s with remote := none, origin := .empty } [])
      | .rel _ => .error .missingPath
      | .localPath p =>
        if pathExists st.fs p then
          match bestRemote st.remotes p with
          | some (rn, base) =>
            .ok (addRecord st name
              { s with url := .rel (p.drop base.length), remote := some rn,
                       origin := .localPath p }
              (pullFiles st.fs p))
          | none =>
            .ok (addRecord st name
              { s with url := .empty, remote := none, origin := .localPath p }
              (pullFiles st.fs p))
        else .error .missingPath
      | .remoteRel rn rel =>
        match st.remotes.lookup rn with
        | none => .error .unknownRemote
        | some base =>
          if pathExists st.fs (base ++ rel) then
            .ok (addRecord st name
              { s with url := if isFile st.fs (base ++ rel) then
                                .rel [(base ++ rel).getLastD ""]
                              else .rel rel,
                       remote := some rn, origin := .remoteRel rn rel }
              (pullFiles st.fs (base ++ rel)))
          else .error .missingPath
    else
      match s.url with
      | .empty => .ok (addRecord st name { s with origin := .empty } [])
      | .localPath p =>
        if pathExists st.fs p then
          .ok (addRecord st name { s with origin := .localPath p } [])
        else .error .detachedProject
      | .remoteRel _ _ => .error .detachedProject
      | .rel _ => .error .detachedProject

/-- Resolve a source's origin url to the full path it denotes. -/
def resolveUrl (st : ProjState) (u : Url) : Option FPath :=
  match u with
  | .empty => none
  | .localPath p => some p
  | .remoteRel r rel => (st.remotes.lookup r).map (· ++ rel)
  | .rel _ => none

/-- Modelled from the spec: `project.sources.pull(name)`
(`datumaro.components.project.ProjectSources.pull`, spec section 4.3) —
re-copy the latest data from the source's resolved URL into the managed
directory, replacing its prior contents: a file source copies the single
file, a directory source copies exactly the tree under that subpath. -/
def sourcesPull (st : ProjState) (name : String) : Except PErr ProjState :=
  match st.srcs.lookup name with
  | none => .error .unknownSource
  | some r =>
    match resolveUrl st r.origin with
    | none => .error .missingPath
    | some full =>
      if pathExists st.fs full then
        .ok { st with srcData := (name, pullFiles st.fs full) :: st.srcData }
      else .error .missingPath

/- ## Theorems -/

/-- Claim C9: `_get_action_name` is total over all commands and always
returns a string ending in `_result`; every command object not identical to
one of the enumerated command callables yields exactly
`unknown_command_result`, and each enumerated command yields its fixed
label. -/
theorem get_action_name_total :
    (∀ c : DmCommand, strEndsWith (getActionName c) "_result" = true)
    ∧ (∀ n : Nat, getActionName (.other n) = "unknown_command_result")
    ∧ getActionName .projectExport = "project_export_result"
    ∧ getActionName .projectFilter = "project_filter_result"
    ∧ getActionName .projectTransform = "project_transform_result"
    ∧ getActionName .projectInfo = "project_info_result"
    ∧ getActionName .projectStats = "project_stats_result"
    ∧ getActionName .projectValidate = "project_validate_result"
    ∧ getActionName .projectMigrate = "project_migrate_result"
    ∧ getActionName .sourceAdd = "source_add_result"
    ∧ getActionName .sourceRemove = "source_remove_result"
    ∧ getActionName .sourceInfo = "source_info_result"
    ∧ getActionName .modelAdd = "model_add_result"
    ∧ getActionName .modelRemove = "model_remove_result"
    ∧ getActionName .modelRun = "model_run_result"
    ∧ getActionName .modelInfo = "model_info_result"
    ∧ getActionName .checkout = "checkout_result"
    ∧ getActionName .commit = "commit_result"
    ∧ getActionName .convert = "convert_result"
    ∧ getActionName .create = "create_result"
    ∧ getActionName .diff = "diff_result"
    ∧ getActionName .explain = "explain_result"
    ∧ getActionName .info = "info_result"
    ∧ getActionName .log = "log_result"
    ∧ getActionName .merge = "merge_result"
    ∧ getActionName .status = "status_result" := by
  refine ⟨fun c => ?_, fun _ => rfl, rfl, rfl, rfl, rfl, rfl, rfl, rfl, rfl,
    rfl, rfl, rfl, rfl, rfl, rfl, rfl, rfl, rfl, rfl, rfl, rfl, rfl, rfl, rfl, rfl⟩
  cases c <;> rfl

/-- Claim C8: `_cleanup_params_info` maps every path-listed attribute to the
constant string "1", never emits the keys `command` or `_positionals`, and
two argument objects that agree on attribute names and on the values of all
non-path attributes produce identical outputs — no path value flows into
the telemetry payload. -/
theorem cleanup_params_info_private {α : Type} (strFn : α → String)
    (args : List (String × α)) (paths : List String) :
    (∀ k v, (k, v) ∈ cleanupParamsInfo strFn args paths →
      k ≠ "command" ∧ k ≠ "_positionals" ∧ (k ∈ paths → v = "1"))
    ∧ (∀ args' : List (String × α),
        List.Forall₂ (fun p q => p.1 = q.1 ∧ (p.1 ∉ paths → p.2 = q.2)) args args' →
        cleanupParamsInfo strFn args paths = cleanupParamsInfo strFn args' paths) := by
  constructor
  · intro k v h
    rw [cleanupParamsInfo, List.mem_filterMap] at h
    obtain ⟨⟨k0, v0⟩, _, hf⟩ := h
    by_cases hex : k0 = "command" ∨ k0 = "_positionals"
    · rw [if_pos hex] at hf
      exact absurd hf (by simp)
    · rw [if_neg hex] at hf
      by_cases hp : k0 ∈ paths
      · rw [if_pos hp] at hf
        simp only [Option.some.injEq, Prod.mk.injEq] at hf
        obtain ⟨rfl, rfl⟩ := hf
        exact ⟨fun h => hex (Or.inl h), fun h => hex (Or.inr h), fun _ => rfl⟩
      · rw [if_neg hp] at hf
        simp only [Option.some.injEq, Prod.mk.injEq] at hf
        obtain ⟨rfl, rfl⟩ := hf
        exact ⟨fun h => hex (Or.inl h), fun h => hex (Or.inr h), fun h => absurd h hp⟩
  · intro args' hrel
    induction hrel with
    | nil => rfl
    | @cons a b l₁ l₂ hpq htl ih =>
      obtain ⟨a1, a2⟩ := a
      obtain ⟨b1, b2⟩ := b
      obtain ⟨hk, hv⟩ := hpq
      simp only at hk hv
      subst hk
      simp only [cleanupParamsInfo, List.filterMap_cons] at ih ⊢
      by_cases hex : a1 = "command" ∨ a1 = "_positionals"
      · simp only [if_pos hex, ih]
      · by_cases hp : a1 ∈ paths
        · simp only [if_neg hex, if_pos hp, ih]
        · simp only [if_neg hex, if_neg hp, hv hp, ih]

/-- Claim C1: with a filter stage for the expression `/item[id < 5]`
attached to a source, `make_dataset` on that build target yields exactly
the items whose id is less than 5, in the same relative order the extractor
yielded them (the result is the order-preserving filter, a sublist of the
extractor's output). -/
theorem makeDataset_filter_stage (items : List DItem) :
    makeDataset ⟨[("f", items)], [("source", "f")],
        [("source", [.filterStage (.idLt 5)])]⟩ "source"
      = some (items.filter (fun it => decide (it.id < 5)))
    ∧ (items.filter (fun it => decide (it.id < 5))).Sublist items := by
  refine ⟨?_, List.filter_sublist items⟩
  rfl

/-- Claim C2: `ModelTransform` over five single-value items (ids 0..4) with
batch size 3 yields the five items in their original order, each with
exactly one annotation whose recorded batch-relative index is the item's id
modulo 3 and whose recorded payload is the item's own data. -/
theorem modelTransform_batch_grouping (d0 d1 d2 d3 d4 : Int) :
    modelTransform testLauncher 3
        [⟨0, d0, []⟩, ⟨1, d1, []⟩, ⟨2, d2, []⟩, ⟨3, d3, []⟩, ⟨4, d4, []⟩]
      = .ok [⟨0, d0, [⟨0, 0 % 3, d0⟩]⟩, ⟨1, d1, [⟨0, 1 % 3, d1⟩]⟩,
             ⟨2, d2, [⟨0, 2 % 3, d2⟩]⟩, ⟨3, d3, [⟨0, 3 % 3, d3⟩]⟩,
             ⟨4, d4, [⟨0, 4 % 3, d4⟩]⟩] := by
  simp [modelTransform, take_by, modelTransformBatches, testLauncher,
    List.enum, List.enumFrom]

/-- If some batch's launcher output count differs from its input count,
processing the batch list fails with the output-mismatch error. -/
lemma modelTransformBatches_mismatch {α : Type}
    (launcher : List Int → List (List α)) :
    ∀ bs : List (List (MTItem α)),
      (∃ b ∈ bs, (launcher (b.map (·.data))).length ≠ b.length) →
      modelTransformBatches launcher bs = .error .launcherOutputMismatch := by
  intro bs
  induction bs with
  | nil =>
    rintro ⟨b, h, _⟩
    cases h
  | cons b bs ih =>
    rintro ⟨b', hb', hne⟩
    by_cases hlen : (launcher (b.map (·.data))).length = b.length
    · have hex : ∃ x ∈ bs, (launcher (x.map (·.data))).length ≠ x.length := by
        rcases List.mem_cons.mp hb' with rfl | hmem
        · exact absurd hlen hne
        · exact ⟨b', hmem, hne⟩
      simp [modelTransformBatches, if_pos hlen, ih hex]
    · simp [modelTransformBatches, if_neg hlen]

/-- Claim C5: whenever the launcher returns, for some batch, an output
sequence whose length differs from the number of inputs in that batch,
`ModelTransform` fails with `LauncherOutputMismatchError`; the error is
raised to the caller, not swallowed. -/
theorem modelTransform_output_mismatch {α : Type}
    (launcher : List Int → List (List α)) (bsize : Nat)
    (items : List (MTItem α))
    (h : ∃ b ∈ take_by bsize items, (launcher (b.map (·.data))).length ≠ b.length) :
    modelTransform launcher bsize items = .error .launcherOutputMismatch :=
  modelTransformBatches_mismatch launcher (take_by bsize items) h

/-- Witness for claim C5: a launcher that always returns no outputs fails
on a singleton batch. -/
theorem modelTransform_output_mismatch_witness :
    modelTransform (fun _ : List Int => ([] : List (List Unit))) 1
        [⟨0, 0, []⟩] = .error .launcherOutputMismatch :=
  modelTransform_output_mismatch (fun _ => []) 1 [⟨0, 0, []⟩]
    ⟨[⟨0, 0, []⟩], by simp [take_by], by simp⟩

/-- Lookup of a freshly inserted key returns its value. -/
lemma lookup_cons_self {β : Type} (name : String) (v : β)
    (rest : List (String × β)) : ((name, v) :: rest).lookup name = some v := by
  simp [List.lookup]

/-- Lookup of a freshly added source returns its record. -/
lemma lookup_addRecord (st : ProjState) (name : String) (r : SourceRec)
    (d : List FPath) : (addRecord st name r d).srcs.lookup name = some r :=
  lookup_cons_self name r st.srcs

/-- Lookup of a freshly added source's managed data returns its contents. -/
lemma lookup_addRecord_data (st : ProjState) (name : String) (r : SourceRec)
    (d : List FPath) : (addRecord st name r d).srcData.lookup name = some d :=
  lookup_cons_self name d st.srcData

/-- Claim C3: whenever `sources.add(name, s)` succeeds, `sources[name]`
returns a record whose `format` equals `s.format` and whose `options`
mapping equals `s.options` (add/lookup round-trip). -/
theorem sources_add_roundtrip (st : ProjState) (name : String) (s : SourceRec)
    (st' : ProjState) (h : sourcesAdd st name s = .ok st') :
    ∃ r, st'.srcs.lookup name = some r
      ∧ r.format = s.format ∧ r.options = s.options := by
  unfold sourcesAdd at h
  repeat' split at h
  all_goals
    first
    | (injection h with h'
       subst h'
       exact ⟨_, lookup_addRecord .., rfl, rfl⟩)
    | injection h

/-- Witness for claim C3: adding an url-less source to a fresh detached
project and looking it up returns its format and options. -/
theorem sources_add_roundtrip_witness :
    ∃ r, (addRecord ⟨false, [], [], [], []⟩ "s"
        ⟨.empty, "fmt", [("a", "5")], none, .empty⟩ []).srcs.lookup "s" = some r
      ∧ r.format = "fmt" ∧ r.options = [("a", "5")] :=
  sources_add_roundtrip ⟨false, [], [], [], []⟩ "s"
    ⟨.empty, "fmt", [("a", "5")], none, .empty⟩ _ rfl

/-- Claim C4: on a detached (in-memory) project, adding a source whose url
is a nonexistent local path fails with `DetachedProjectError`, while adding
a record with no url succeeds. -/
theorem sources_add_detached_rules (st : ProjState) (name : String)
    (s : SourceRec) (p : FPath) (hatt : st.attached = false)
    (hfresh : st.srcs.lookup name = none) :
    (s.url = .localPath p → pathExists st.fs p = false →
      sourcesAdd st name s = .error .detachedProject)
    ∧ (s.url = .empty → ∃ st', sourcesAdd st name s = .ok st') := by
  constructor
  · intro hu hpe
    simp [sourcesAdd, hfresh, hatt, hu, hpe]
  · intro hu
    refine ⟨addRecord st name { s with origin := .empty } [], ?_⟩
    simp [sourcesAdd, hfresh, hatt, hu]

/-- Witness for claim C4: on an empty detached project, the path `x` does
not exist and adding a source at it is rejected, while an url-less source
is accepted. -/
theorem sources_add_detached_rules_witness :
    sourcesAdd ⟨false, [], [], [], []⟩ "s"
        ⟨.localPath ["x"], "fmt", [], none, .empty⟩ = .error .detachedProject
    ∧ ∃ st', sourcesAdd ⟨false, [], [], [], []⟩ "s"
        ⟨.empty, "fmt", [], none, .empty⟩ = .ok st' :=
  ⟨(sources_add_detached_rules ⟨false, [], [], [], []⟩ "s"
      ⟨.localPath ["x"], "fmt", [], none, .empty⟩ ["x"] rfl rfl).1 rfl rfl,
   (sources_add_detached_rules ⟨false, [], [], [], []⟩ "s"
      ⟨.empty, "fmt", [], none, .empty⟩ ["x"] rfl rfl).2 rfl⟩

/-- Claim C7: adding a source by an existing local url to an attached
project copies the path's contents into the managed source-data directory;
the stored url becomes empty when no registered remote covers the path,
becomes relative to the longest-prefix-matching remote (overlapping tail
trimmed) when one does, and adding `remote://rn/<rel>` naming a single file
stores the file's basename as url with remote `rn`. -/
theorem sources_add_attached_url (st : ProjState) (name : String)
    (s : SourceRec) (p : FPath) (rn : String) (rel base : FPath)
    (hatt : st.attached = true) (hfresh : st.srcs.lookup name = none) :
    (s.url = .localPath p → pathExists st.fs p = true →
      bestRemote st.remotes p = none →
      ∃ st' r, sourcesAdd st name s = .ok st'
        ∧ st'.srcs.lookup name = some r ∧ r.url = .empty ∧ r.remote = none
        ∧ st'.srcData.lookup name = some (pullFiles st.fs p))
    ∧ (s.url = .localPath p → pathExists st.fs p = true →
      bestRemote st.remotes p = some (rn, base) →
      ∃ st' r, sourcesAdd st name s = .ok st'
        ∧ st'.srcs.lookup name = some r
        ∧ r.url = .rel (p.drop base.length) ∧ r.remote = some rn
        ∧ st'.srcData.lookup name = some (pullFiles st.fs p))
    ∧ (s.url = .remoteRel rn rel → st.remotes.lookup rn = some base →
      isFile st.fs (base ++ rel) = true →
      ∃ st' r, sourcesAdd st name s = .ok st'
        ∧ st'.srcs.lookup name = some r
        ∧ r.url = .rel [(base ++ rel).getLastD ""] ∧ r.remote = some rn
        ∧ st'.srcData.lookup name = some [[(base ++ rel).getLastD ""]]) := by
  refine ⟨?_, ?_, ?_⟩
  · intro hu hpe hbr
    refine ⟨addRecord st name
        { s with url := .empty, remote := none, origin := .localPath p }
        (pullFiles st.fs p),
      { s with url := .empty, remote := none, origin := .localPath p },
      ?_, lookup_addRecord .., rfl, rfl, lookup_addRecord_data ..⟩
    simp [sourcesAdd, hfresh, hatt, hu, hpe, hbr]
  · intro hu hpe hbr
    refine ⟨addRecord st name
        { s with url := .rel (p.drop base.length), remote := some rn,
                 origin := .localPath p }
        (pullFiles st.fs p),
      { s with url := .rel (p.drop base.length), remote := some rn,
               origin := .localPath p },
      ?_, lookup_addRecord .., rfl, rfl, lookup_addRecord_data ..⟩
    simp [sourcesAdd, hfresh, hatt, hu, hpe, hbr]
  · intro hu hrem hfile
    refine ⟨addRecord st name
        { s with url := .rel [(base ++ rel).getLastD ""], remote := some rn,
                 origin := .remoteRel rn rel }
        [[(base ++ rel).getLastD ""]],
      { s with url := .rel [(base ++ rel).getLastD ""], remote := some rn,
               origin := .remoteRel rn rel },
      ?_, lookup_addRecord .., rfl, rfl, lookup_addRecord_data ..⟩
    simp [sourcesAdd, hfresh, hatt, hu, hrem, hfile, pathExists, pullFiles]

/-- Witness for claim C7: adding `remote://r1/x/y.txt` over remote `r1` at
base `repo` stores url `y.txt`, remote `r1`, and the file lands in the
managed directory under its basename. -/
theorem sources_add_attached_url_witness :
    ∃ st' r,
      sourcesAdd ⟨true, [["repo", "x", "y.txt"]], [("r1", ["repo"])], [], []⟩
          "s1" ⟨.remoteRel "r1" ["x", "y.txt"], "fmt", [], none, .empty⟩
        = .ok st'
      ∧ st'.srcs.lookup "s1" = some r
      ∧ r.url = .rel ["y.txt"] ∧ r.remote = some "r1"
      ∧ st'.srcData.lookup "s1" = some [["y.txt"]] :=
  (sources_add_attached_url ⟨true, [["repo", "x", "y.txt"]],
      [("r1", ["repo"])], [], []⟩ "s1"
      ⟨.remoteRel "r1" ["x", "y.txt"], "fmt", [], none, .empty⟩
      [] "r1" ["x", "y.txt"] ["repo"] rfl rfl).2.2 rfl rfl rfl

/-- The files copied from a directory are exactly the nonempty relative
paths whose rebasing under the directory is an existing file. -/
lemma mem_filesUnder (fs : List FPath) (dir p : FPath) :
    p ∈ filesUnder fs dir ↔ (dir ++ p) ∈ fs ∧ p ≠ [] := by
  unfold filesUnder
  rw [List.mem_map]
  constructor
  · rintro ⟨f, hf, rfl⟩
    rw [List.mem_filter] at hf
    obtain ⟨hmem, hcond⟩ := hf
    rw [Bool.and_eq_true, decide_eq_true_eq] at hcond
    obtain ⟨hpre, hlen⟩ := hcond
    obtain ⟨t, rfl⟩ := List.isPrefixOf_iff_prefix.mp hpre
    rw [List.drop_left]
    refine ⟨hmem, ?_⟩
    intro ht
    subst ht
    simp at hlen
  · rintro ⟨hmem, hne⟩
    refine ⟨dir ++ p, List.mem_filter.mpr ⟨hmem, ?_⟩, List.drop_left dir p⟩
    rw [Bool.and_eq_true, decide_eq_true_eq]
    refine ⟨ List.isPrefixOf_iff_prefix.mpr ⟨p, rfl⟩, ?_⟩
    rw [List.length_append]
    have : 0 < p.length := List.length_pos.mpr hne
    omega

/-- Claim C6: pulling a source whose origin is remote-relative copies, for
a directory subpath, exactly the files under that subpath into the managed
directory, and for a single-file subpath only that file — no sibling file
of the same remote directory appears. -/
theorem sources_pull_remote_rel (st : ProjState) (name : String)
    (r : SourceRec) (rn : String) (rel base : FPath)
    (hsrc : st.srcs.lookup name = some r)
    (horig : r.origin = .remoteRel rn rel)
    (hrem : st.remotes.lookup rn = some base) :
    (isFile st.fs (base ++ rel) = false → isDir st.fs (base ++ rel) = true →
      ∃ st', sourcesPull st name = .ok st'
        ∧ st'.srcData.lookup name = some (filesUnder st.fs (base ++ rel))
        ∧ ∀ p, p ∈ filesUnder st.fs (base ++ rel) ↔
            ((base ++ rel) ++ p) ∈ st.fs ∧ p ≠ [])
    ∧ (isFile st.fs (base ++ rel) = true →
      ∃ st', sourcesPull st name = .ok st'
        ∧ st'.srcData.lookup name = some [[(base ++ rel).getLastD ""]]) := by
  constructor
  · intro hfile hdir
    refine ⟨{ st with
        srcData := (name, filesUnder st.fs (base ++ rel)) :: st.srcData },
      ?_, lookup_cons_self .., fun p => mem_filesUnder st.fs (base ++ rel) p⟩
    simp [sourcesPull, hsrc, horig, resolveUrl, hrem, pathExists, pullFiles,
      hfile, hdir]
  · intro hfile
    refine ⟨{ st with
        srcData := (name, [[(base ++ rel).getLastD ""]]) :: st.srcData },
      ?_, lookup_cons_self ..⟩
    simp [sourcesPull, hsrc, horig, resolveUrl, hrem, pathExists, pullFiles,
      hfile]

/-- Witness for claim C6: pulling the file source `x/y.txt` under remote
`r1` at base `repo` copies only `y.txt`, not the sibling `z.txt`. -/
theorem sources_pull_remote_rel_witness :
    ∃ st', sourcesPull
        ⟨true, [["repo", "x", "y.txt"], ["repo", "x", "z.txt"]],
          [("r1", ["repo"])],
          [("s1", ⟨.rel ["y.txt"], "fmt", [], some "r1",
            .remoteRel "r1" ["x", "y.txt"]⟩)], []⟩ "s1" = .ok st'
      ∧ st'.srcData.lookup "s1" = some [["y.txt"]] :=
  (sources_pull_remote_rel
    ⟨true, [["repo", "x", "y.txt"], ["repo", "x", "z.txt"]],
      [("r1", ["repo"])],
      [("s1", ⟨.rel ["y.txt"], "fmt", [], some "r1",
        .remoteRel "r1" ["x", "y.txt"]⟩)], []⟩ "s1"
    ⟨.rel ["y.txt"], "fmt", [], some "r1", .remoteRel "r1" ["x", "y.txt"]⟩
    "r1" ["x", "y.txt"] ["repo"] rfl rfl rfl).2 rfl

/-- The capture of `([^\x22]+)` before an explicit closing quote is exactly
the quote-free text in front of it. -/
lemma takeUntilQuote_append (path rest : List Char) (h : '"' ∉ path) :
    takeUntilQuote (path ++ '"' :: rest) = some (path, rest) := by
  induction path with
  | nil => simp [takeUntilQuote]
  | cons c cs ih =>
    have hc : c ≠ '"' := fun hq => h (hq ▸ List.mem_cons_self c cs)
    have h' : '"' ∉ cs := fun hm => h (List.mem_cons_of_mem c hm)
    simp [takeUntilQuote, hc, ih h']

/-- A scan position where the fixed part does not match is skipped. -/
lemma subFileOnceAux_cons_neg (f : List Char → List Char) (c : Char)
    (cs : List Char) (hpre : fileQuote.isPrefixOf (c :: cs) = false) :
    subFileOnceAux f (c :: cs) = c :: subFileOnceAux f cs := by
  simp [subFileOnceAux, hpre]

/-- A scan position where the whole pattern matches rewrites the captured
path and stops. -/
lemma subFileOnceAux_cons_pos (f : List Char → List Char) (c : Char)
    (cs cap rest : List Char)
    (hpre : fileQuote.isPrefixOf (c :: cs) = true)
    (htake : takeUntilQuote (List.drop 5 cs) = some (cap, rest))
    (hcap : cap ≠ []) :
    subFileOnceAux f (c :: cs) = fileQuote ++ f cap ++ '"' :: rest := by
  simp [subFileOnceAux, hpre, htake, hcap]

/-- Substituting on `File "<path>"<rest>` with a nonempty quote-free path
rewrites exactly the path. -/
lemma subFileOnceAux_match (f : List Char → List Char) (path rest : List Char)
    (h1 : path ≠ []) (h2 : '"' ∉ path) :
    subFileOnceAux f (fileQuote ++ path ++ '"' :: rest)
      = fileQuote ++ f path ++ '"' :: rest := by
  exact subFileOnceAux_cons_pos f 'F'
    ('i' :: 'l' :: 'e' :: ' ' :: '"' :: (path ++ '"' :: rest)) path rest
    ( List.isPrefixOf_iff_prefix.mpr ⟨path ++ '"' :: rest, rfl⟩)
    (takeUntilQuote_append path rest h2) h1

/-- Substituting on a formatted traceback entry cleans exactly the header
path — the first match — and leaves the remainder of the entry unchanged. -/
lemma subFileOnceAux_formatFrame (f : List Char → List Char) (fr : TBFrame)
    (h1 : fr.path ≠ []) (h2 : '"' ∉ fr.path) :
    subFileOnceAux f (formatFrameL fr)
      = [' ', ' '] ++ fileQuote ++ f fr.path ++ '"' :: fr.rest := by
  have hF : ('F' == ' ') = false := rfl
  have hsp : ∀ cs : List Char, fileQuote.isPrefixOf (' ' :: cs) = false := by
    intro cs
    simp [fileQuote, List.isPrefixOf, hF]
  rw [show formatFrameL fr
      = ' ' :: (' ' :: ((fileQuote ++ fr.path) ++ '"' :: fr.rest)) from rfl]
  rw [subFileOnceAux_cons_neg f ' ' _ (hsp _),
    subFileOnceAux_cons_neg f ' ' _ (hsp _),
    subFileOnceAux_match f fr.path fr.rest h1 h2]
  rfl

/-- Pieces produced by the slash split never contain a slash. -/
lemma splitSlashAux_no_slash (s : List Char) :
    ∀ acc : List Char, '/' ∉ acc → ∀ x ∈ splitSlashAux s acc, '/' ∉ x := by
  induction s with
  | nil =>
    intro acc hacc x hx
    simp only [splitSlashAux, List.mem_singleton] at hx
    subst hx
    intro hm
    exact hacc (List.mem_reverse.mp hm)
  | cons c cs ih =>
    intro acc hacc x hx
    by_cases hc : c = '/'
    · simp only [splitSlashAux, if_pos hc] at hx
      rcases List.mem_cons.mp hx with rfl | hmem
      · intro hm
        exact hacc (List.mem_reverse.mp hm)
      · exact ih [] (by simp) x hmem
    · simp only [splitSlashAux, if_neg hc] at hx
      refine ih (c :: acc) ?_ x hx
      intro hm
      rcases List.mem_cons.mp hm with heq | hmem
      · exact hc heq.symm
      · exact hacc hmem

/-- The slash split always produces at least one piece. -/
lemma splitSlashAux_ne_nil (s : List Char) :
    ∀ acc : List Char, splitSlashAux s acc ≠ [] := by
  induction s with
  | nil =>
    intro acc
    simp [splitSlashAux]
  | cons c cs ih =>
    intro acc
    by_cases hc : c = '/'
    · simp [splitSlashAux, if_pos hc]
    · simp only [splitSlashAux, if_neg hc]
      exact ih (c :: acc)

/-- Pieces of the slash split of a path never contain a slash. -/
lemma splitSlash_no_slash (s : List Char) : ∀ x ∈ splitSlash s, '/' ∉ x :=
  splitSlashAux_no_slash s [] (by simp)

/-- A basename never contains a slash. -/
lemma baseName_no_slash (s : List Char) : '/' ∉ baseName s := by
  rw [baseName]
  cases hsp : splitSlash s with
  | nil => exact absurd hsp (splitSlashAux_ne_nil s [])
  | cons x xs =>
    have hmem : (x :: xs).getLastD [] ∈ x :: xs := by
      rw [List.getLastD_cons]
      exact List.getLastD_mem_cons xs x
    have hall := splitSlash_no_slash s
    rw [hsp] at hall
    exact hall _ hmem

/-- Every nonempty-filtered component is nonempty and slash-free. -/
lemma pathComps_facts (s : List Char) :
    ∀ x ∈ pathComps s, x ≠ [] ∧ '/' ∉ x := by
  intro x hx
  rw [pathComps, List.mem_filter] at hx
  obtain ⟨hmem, hcond⟩ := hx
  rw [decide_eq_true_eq] at hcond
  refine ⟨?_, splitSlashAux_no_slash s [] (by simp) x hmem⟩
  intro hx0
  subst hx0
  exact hcond rfl

/-- The head of a slash join is the head of its first component. -/
lemma joinComps_head (x : List Char) (xs : List (List Char)) (hx : x ≠ []) :
    (joinComps (x :: xs)).head? = x.head? := by
  cases xs with
  | nil => rfl
  | cons y ys =>
    cases x with
    | nil => exact absurd rfl hx
    | cons a t => rfl

/-- The first component of a relative chain is `..` or a component of the
target path, hence nonempty and slash-free when those are. -/
lemma relChain_head (p s : List (List Char))
    (hp : ∀ x ∈ p, x ≠ [] ∧ '/' ∉ x) :
    ∀ x xs, relChain p s = x :: xs → x ≠ [] ∧ '/' ∉ x := by
  intro x xs heq
  rw [relChain] at heq
  cases hm : s.length - commonLen p s with
  | zero =>
    rw [hm, List.replicate_zero, List.nil_append] at heq
    have hmem : x ∈ p.drop (commonLen p s) := heq ▸ List.mem_cons_self x xs
    exact hp x (List.mem_of_mem_drop hmem)
  | succ m =>
    rw [hm, List.replicate_succ, List.cons_append] at heq
    injection heq with h1 h2
    subst h1
    exact ⟨by simp, by decide⟩

/-- A slash-free text cannot start with a slash. -/
lemma head_ne_slash {l : List Char} (h : '/' ∉ l) : l.head? ≠ some '/' := by
  cases l with
  | nil => simp
  | cons a t =>
    simp only [List.head?_cons, ne_eq, Option.some.injEq]
    intro ha
    subst ha
    exact h (List.mem_cons_self _ _)

/-- A computed relative path never starts with a slash. -/
lemma relPath_head (path start : List Char) :
    (relPath path start).head? ≠ some '/' := by
  rw [relPath]
  split
  · simp
  · rename_i hne
    cases hchain : relChain (pathComps path) (pathComps start) with
    | nil =>
      rw [hchain] at hne
      simp at hne
    | cons x xs =>
      have hx := relChain_head (pathComps path) (pathComps start)
        (pathComps_facts path) x xs hchain
      rw [joinComps_head x xs hx.1]
      exact head_ne_slash hx.2

/-- A cleaned path never starts with a slash: relativized paths start with
`..`, `.` or a path component, and basenames contain no slash at all. -/
lemma cleanPathL_head (installDir p : List Char) :
    (cleanPathL installDir p).head? ≠ some '/' := by
  rw [cleanPathL]
  split
  · exact relPath_head p installDir
  · exact head_ne_slash (baseName_no_slash p)

/-- Claim C10 (amended): in each formatted stack-trace entry, the first
`File "<path>"` occurrence — the frame header — is rewritten: a path
starting with the installation directory is made relative to it, any other
path is reduced to its basename, and the rewritten path never starts with
a slash.  Occurrences after the first in the same entry (for example inside
the displayed source text) are left unchanged by the single-substitution
pass. -/
theorem cleanup_stacktrace_first_occurrence (installDir : List Char)
    (frames : List TBFrame)
    (h : ∀ fr ∈ frames, fr.path ≠ [] ∧ '"' ∉ fr.path) :
    cleanupStacktraceL installDir frames
      = (frames.map (fun fr => [' ', ' '] ++ fileQuote
          ++ cleanPathL installDir fr.path ++ '"' :: fr.rest)).flatten
    ∧ ∀ fr ∈ frames, (cleanPathL installDir fr.path).head? ≠ some '/' := by
  refine ⟨?_, fun fr _ => cleanPathL_head installDir fr.path⟩
  rw [cleanupStacktraceL]
  congr 1
  apply List.map_congr_left
  intro fr hfr
  exact subFileOnceAux_formatFrame (cleanPathL installDir) fr
    (h fr hfr).1 (h fr hfr).2

/-- Witness for claim C10 (amended): one frame inside the installation
tree is relativized in place. -/
theorem cleanup_stacktrace_first_occurrence_witness :
    cleanupStacktraceL ("/app/datumaro".data)
        [⟨"/app/datumaro/util/x.py".data, ", line 3, in f\n".data⟩]
      = ([(⟨"/app/datumaro/util/x.py".data, ", line 3, in f\n".data⟩ : TBFrame)].map
          (fun fr => [' ', ' '] ++ fileQuote
            ++ cleanPathL ("/app/datumaro".data) fr.path ++ '"' :: fr.rest)).flatten
    ∧ ∀ fr ∈ [(⟨"/app/datumaro/util/x.py".data, ", line 3, in f\n".data⟩ : TBFrame)],
        (cleanPathL ("/app/datumaro".data) fr.path).head? ≠ some '/' :=
  cleanup_stacktrace_first_occurrence ("/app/datumaro".data)
    [⟨"/app/datumaro/util/x.py".data, ", line 3, in f\n".data⟩] (by decide)

/-- Counterexample for claim C10 as stated: the substitution is applied at
most once per formatted entry, so a second `File "<path>"` occurrence in
the entry's displayed source text keeps its text verbatim — here the
returned trace still contains the absolute path `/etc/secret`, which lies
outside the installation tree, contradicting the claim that every other
occurrence holds only the file's basename and that no absolute filesystem
path from outside the installation tree appears in the returned trace. -/
theorem cleanup_stacktrace_counterexample :
    listContainsSub ("/etc/secret".data)
        (cleanupStacktraceL ("/app/datumaro".data)
          [⟨"/app/datumaro/util/x.py".data,
            ", line 3, in f\n    x = note File \"/etc/secret\" here\n".data⟩])
      = true
    ∧ ("/app/datumaro".data).isPrefixOf ("/etc/secret".data) = false
    ∧ ("/etc/secret".data).head? = some '/' :=
  ⟨by decide, by decide, rfl⟩

/-- Witness for claim C8: two argument lists differing only in the value of
the path-listed parameter produce the same scrubbed payload, and a kept
entry obeys the scrubbing rules. -/
theorem cleanup_params_info_private_witness :
    ("model" ≠ "command" ∧ "model" ≠ "_positionals"
      ∧ ("model" ∈ ["path1"] → "m" = "1"))
    ∧ cleanupParamsInfo (fun s : String => s)
        [("command", "c"), ("model", "m"), ("path1", "/secret")] ["path1"]
      = cleanupParamsInfo (fun s : String => s)
        [("command", "c"), ("model", "m"), ("path1", "/other")] ["path1"] :=
  ⟨(cleanup_params_info_private (fun s : String => s)
      [("command", "c"), ("model", "m"), ("path1", "/secret")] ["path1"]).1
      "model" "m" (by decide),
   (cleanup_params_info_private (fun s : String => s)
      [("command", "c"), ("model", "m"), ("path1", "/secret")] ["path1"]).2
      [("command", "c"), ("model", "m"), ("path1", "/other")]
      (.cons ⟨rfl, fun _ => rfl⟩ (.cons ⟨rfl, fun _ => rfl⟩
        (.cons ⟨rfl, fun h => absurd (by decide) h⟩ .nil)))⟩
